import Mathlib

set_option maxHeartbeats 1000000

/- Shallow embedding of the djongo sql2mongo core
   (djongo/sql2mongo/__init__.py and djongo/sql2mongo/converters.py):
   the parsed-token model, the SQLToken accessor properties, the alias
   registry and the clause converters, translated from the source. -/

/-- Model of one parsed sqlparse token node, covering the node kinds the
compiler inspects: Identifier (with parent name, real name, alias, ordering
keyword and sub-tokens), IdentifierList (with its identifier items already
filtered as get_identifiers returns them), Comparison (left and right
children), Parenthesis (inner holds the tokens strictly between the two
paren punctuation tokens), Keyword (kw normalized as sqlparse matches it),
a Name.Placeholder token, and any other simple token. Every node carries
its raw text value. -/
inductive PTok where
  | ident (parentName realName aliasName ordering : Option String)
      (subs : List PTok) (value : String)
  | identList (items : List PTok) (value : String)
  | cmp (left right : PTok) (value : String)
  | paren (inner : List PTok) (value : String)
  | keyword (kw : String) (value : String)
  | placeholderTok (value : String)
  | other (value : String)

/-- Raw text of a token node, as str(token) returns it. -/
def PTok.value : PTok → String
  | .ident _ _ _ _ _ v => v
  | .identList _ v => v
  | .cmp _ _ v => v
  | .paren _ v => v
  | .keyword _ v => v
  | .placeholderTok v => v
  | .other v => v

/-- MongoDB / Python values appearing in the emitted query documents.
Documents are insertion-ordered key-value lists, like Python dicts. -/
inductive MVal where
  | str (s : String)
  | int (n : Int)
  | bool (b : Bool)
  | null
  | doc (entries : List (String × MVal))
  | arr (elems : List MVal)

/-- The exceptions the compiled code can raise: SQLDecodeError,
NotSupportedError, and the builtin AttributeError, TypeError, KeyError and
IndexError that escape when the code accesses a missing attribute, key or
list position. -/
inductive PyErr where
  | decodeErr
  | notSupportedErr
  | attrErr
  | typeErr
  | keyErr
  | indexErr
deriving DecidableEq

/-- Python dict lookup over an insertion-ordered key-value list. -/
def dlookup {α : Type} : List (String × α) → String → Option α
  | [], _ => none
  | (k, v) :: rest, key => if k = key then some v else dlookup rest key

/-- Python dict assignment: overwrite in place when the key exists,
append otherwise. -/
def dinsert {α : Type} : List (String × α) → String → α → List (String × α)
  | [], k, v => [(k, v)]
  | (k', v') :: rest, k, v =>
      if k' = k then (k, v) :: rest else (k', v') :: dinsert rest k v

/-- The alias registry (query.TokenAlias): alias name to registered token,
and registered token back to alias name. In the source the registry stores
SQLToken wrappers that all carry a reference to this same registry, so the
token side is modelled by the wrapped parser token. The token2alias dict is
keyed by SQLToken objects, which compare by object identity; since every
registration constructs a fresh wrapper, each registration appends a fresh
entry there. -/
structure TokenAlias where
  alias2token : List (String × PTok)
  token2alias : List (PTok × String)

/-- Name selection in SQLToken.table: the parent (qualifying) name when
present, else the real name. -/
def identName (p r : Option String) : Option String :=
  match p with
  | some n => some n
  | none => r

/-- SQLToken.table: only Identifier nodes have a table; take the parent
name, else the real name, fail when both are absent; then look the name up
in alias2token and, when bound, return the table of the bound token
(recursion bounded by fuel; the source recurses through Python property
calls); a missing registry (TypeError) or an unbound name (KeyError) falls
back to the name itself. -/
def tableF (fuel : Nat) (t : PTok) (reg : Option TokenAlias) :
    Except PyErr String :=
  match t with
  | .ident p r _ _ _ _ =>
    match identName p r with
    | none => .error .decodeErr
    | some name =>
      match reg with
      | none => .ok name
      | some ta =>
        match dlookup ta.alias2token name with
        | none => .ok name
        | some bound =>
          match fuel with
          | 0 => .error .decodeErr
          | fuel' + 1 => tableF fuel' bound reg
  | _ => .error .decodeErr

/-- SQLToken.column: the real name of an Identifier node, fail otherwise
or when the real name is absent. -/
def columnF : PTok → Except PyErr String
  | .ident _ r _ _ _ _ =>
    match r with
    | none => .error .decodeErr
    | some n => .ok n
  | _ => .error .decodeErr

/-- SQLToken hashing: hash of the raw text value of the wrapped token, for
any underlying string hash h. -/
def sqlTokenHash (h : String → Int) (t : PTok) : Int :=
  h (PTok.value t)

/-- Alias registration as each converter performs it:
alias2token[alias] = token and token2alias[token] = alias. -/
def registerAlias (ta : TokenAlias) (a : String) (t : PTok) : TokenAlias :=
  { alias2token := dinsert ta.alias2token a t
    token2alias := ta.token2alias ++ [(t, a)] }

/- Dictionary lemmas. -/

theorem dlookup_dinsert_self {α : Type} (d : List (String × α)) (k : String)
    (v : α) : dlookup (dinsert d k v) k = some v := by
  induction d with
  | nil => simp [dinsert, dlookup]
  | cons p rest ih =>
    obtain ⟨k', v'⟩ := p
    by_cases hk : k' = k
    · simp [dinsert, hk, dlookup]
    · simp [dinsert, hk, dlookup, ih]

theorem dlookup_dinsert_ne {α : Type} (d : List (String × α)) (k k' : String)
    (v : α) (h : k' ≠ k) : dlookup (dinsert d k v) k' = dlookup d k' := by
  have hks : k ≠ k' := Ne.symm h
  induction d with
  | nil => simp [dinsert, dlookup, hks]
  | cons p rest ih =>
    obtain ⟨k₀, v₀⟩ := p
    by_cases hk : k₀ = k
    · subst hk
      simp [dinsert, dlookup, hks]
    · by_cases hk' : k₀ = k'
      · simp [dinsert, dlookup, hk, hk', h]
      · simp [dinsert, dlookup, hk, hk', ih]

theorem dinsert_fresh {α : Type} (d : List (String × α)) (k : String) (v : α)
    (h : k ∉ d.map Prod.fst) : dinsert d k v = d ++ [(k, v)] := by
  induction d with
  | nil => rfl
  | cons p rest ih =>
    obtain ⟨k', v'⟩ := p
    simp only [List.map_cons, List.mem_cons] at h
    push_neg at h
    have hne : k' ≠ k := Ne.symm h.1
    simp [dinsert, hne, ih h.2]

theorem dlookup_not_mem {α : Type} (d : List (String × α)) (k : String)
    (h : k ∉ d.map Prod.fst) : dlookup d k = none := by
  induction d with
  | nil => rfl
  | cons p rest ih =>
    obtain ⟨k', v'⟩ := p
    simp only [List.map_cons, List.mem_cons] at h
    push_neg at h
    have hne : k' ≠ k := Ne.symm h.1
    simp [dlookup, hne, ih h.2]

/-- C5: SQLToken.table takes the qualifying parent name when present, else
the real name (hypothesis hname); with no registry attached it returns that
name unchanged; with a registry in which the name is unbound it returns the
name unchanged; and when the name is bound in the registry it returns the
table of the token the alias is bound to. -/
theorem sqltoken_table_resolution (fuel : Nat)
    (p r a o : Option String) (subs : List PTok) (v : String)
    (name : String) (hname : identName p r = some name) :
    tableF fuel (.ident p r a o subs v) none = .ok name
  ∧ (∀ ta : TokenAlias, dlookup ta.alias2token name = none →
      tableF fuel (.ident p r a o subs v) (some ta) = .ok name)
  ∧ (∀ (ta : TokenAlias) (bound : PTok),
      dlookup ta.alias2token name = some bound →
      tableF (fuel + 1) (.ident p r a o subs v) (some ta) =
        tableF fuel bound (some ta)) := by
  refine ⟨?_, ?_, ?_⟩
  · simp [tableF, hname]
  · intro ta hta
    simp [tableF, hname, hta]
  · intro ta bound hta
    simp [tableF, hname, hta]

/-- C5 witness: after the FROM clause registers the binding t to the token
of "table AS t", a later reference qualified through t resolves to table. -/
theorem sqltoken_table_resolution_witness :
    tableF 1
      (.ident (some "t") (some "col") none none [] "t.col")
      (some { alias2token :=
                [("t", .ident none (some "table") (some "t") none []
                    "table AS t")],
              token2alias := [] }) = .ok "table" := by
  have h := (sqltoken_table_resolution 0 (some "t") (some "col") none none
    [] "t.col" "t" rfl).2.2
    { alias2token :=
        [("t", .ident none (some "table") (some "t") none [] "table AS t")],
      token2alias := [] }
    (.ident none (some "table") (some "t") none [] "table AS t") rfl
  rw [h]
  rfl

/-- C9: double registration of the same alias name silently overwrites.
Registration is a total function of the registry (it never raises), and a
later lookup of the alias sees only the most recently registered token,
also after further registrations under other alias names. -/
theorem alias_reregistration_overwrites (ta : TokenAlias) (a : String)
    (t₁ t₂ : PTok) (hne : t₁ ≠ t₂) :
    dlookup (registerAlias (registerAlias ta a t₁) a t₂).alias2token a
      = some t₂
  ∧ (∀ (b : String) (t₃ : PTok), b ≠ a →
      dlookup (registerAlias (registerAlias (registerAlias ta a t₁) a t₂)
          b t₃).alias2token a = some t₂) := by
  constructor
  · exact dlookup_dinsert_self _ _ _
  · intro b t₃ hb
    show dlookup (dinsert (dinsert (dinsert ta.alias2token a t₁) a t₂) b t₃)
        a = some t₂
    rw [dlookup_dinsert_ne _ b a t₃ (Ne.symm hb)]
    exact dlookup_dinsert_self _ _ _

/-- C9 witness: rebinding the alias t from token x to token y makes every
later lookup of t return y. -/
theorem alias_reregistration_overwrites_witness :
    dlookup (registerAlias (registerAlias ⟨[], []⟩ "t" (.other "x")) "t"
        (.other "y")).alias2token "t" = some (.other "y") := by
  exact (alias_reregistration_overwrites ⟨[], []⟩ "t" (.other "x")
    (.other "y") (by
      intro h
      injection h with h'
      exact absurd h' (by decide))).1

/-- C10: SQLToken hashing depends only on the raw text value of the wrapped
token, so two SQLToken wrappers around textually equal tokens hash equal,
for every underlying string hash. -/
theorem sqltoken_hash_value_eq (h : String → Int) (t₁ t₂ : PTok)
    (hv : PTok.value t₁ = PTok.value t₂) :
    sqlTokenHash h t₁ = sqlTokenHash h t₂ := by
  simp [sqlTokenHash, hv]

/-- C10 witness: two distinct identifier tokens with the same raw text
hash to the same value. -/
theorem sqltoken_hash_value_eq_witness :
    (PTok.ident none (some "a") none none [] "t.a"
      ≠ PTok.ident (some "t") (some "a") none none [] "t.a")
  ∧ sqlTokenHash (fun s => (s.length : Int))
      (PTok.ident none (some "a") none none [] "t.a")
    = sqlTokenHash (fun s => (s.length : Int))
      (PTok.ident (some "t") (some "a") none none [] "t.a") := by
  constructor
  · intro h
    injection h with hp _ _ _ _ _
    exact Option.noConfusion hp
  · exact sqltoken_hash_value_eq (fun s => (s.length : Int)) _ _ rfl

/-- Maximal leading run of ASCII digits of a character list, with the
remainder; this is how the greedy group of the placeholder regular
expression consumes its input. -/
def takeDigits : List Char → List Char × List Char
  | [] => ([], [])
  | c :: rest =>
    if c.isDigit then
      (c :: (takeDigits rest).1, (takeDigits rest).2)
    else ([], c :: rest)

/-- int() of a digit run. -/
def digitsToNat (ds : List Char) : Nat :=
  ds.foldl (fun n c => n * 10 + (c.toNat - 48)) 0

/-- Core of SQLToken.placeholder_index: re.match of the pattern
percent, open paren, one or more digits, close paren, letter s (match is
case-insensitive, so S is accepted too), anchored only at the start of the
text, trailing characters ignored. When the pattern does not match, the
None returned by re.match has no group attribute, so the source raises
AttributeError, not SQLDecodeError. -/
def phCore (l : List Char) : Except PyErr Nat :=
  match l with
  | c₁ :: c₂ :: rest =>
    if c₁ = '%' ∧ c₂ = '(' then
      if (takeDigits rest).1 = [] then .error .attrErr
      else
        match (takeDigits rest).2 with
        | c₃ :: c₄ :: _ =>
          if c₃ = ')' ∧ (c₄ = 's' ∨ c₄ = 'S') then
            .ok (digitsToNat (takeDigits rest).1)
          else .error .attrErr
        | _ => .error .attrErr
    else .error .attrErr
  | _ => .error .attrErr

/-- SQLToken.placeholder_index over the raw token text. -/
def placeholderIndex (value : String) : Except PyErr Nat :=
  phCore value.data

theorem takeDigits_split (l : List Char) :
    (takeDigits l).1 ++ (takeDigits l).2 = l
  ∧ ∀ c ∈ (takeDigits l).1, c.isDigit = true := by
  induction l with
  | nil => simp [takeDigits]
  | cons c rest ih =>
    by_cases hc : c.isDigit
    · refine ⟨?_, ?_⟩
      · simp [takeDigits, hc, ih.1]
      · intro d hd
        simp only [takeDigits, hc, if_true] at hd
        rcases List.mem_cons.mp hd with h | h
        · exact h ▸ hc
        · exact ih.2 d h
    · simp [takeDigits, hc]

theorem takeDigits_digits_paren (ds t : List Char)
    (hds : ∀ c ∈ ds, c.isDigit = true) :
    takeDigits (ds ++ ')' :: t) = (ds, ')' :: t) := by
  induction ds with
  | nil =>
    have hp : (')' : Char).isDigit = false := by decide
    simp [takeDigits, hp]
  | cons c ds' ih =>
    have hc : c.isDigit = true := hds c (by simp)
    simp [takeDigits, hc, ih (fun d hd => hds d (by simp [hd]))]

/-- C6 counterexample: the text of the token %(5)sXX is not of the form
percent, open paren, digits, close paren, s — yet placeholder parsing
succeeds on it with index 5, because re.match only anchors at the start;
and on a thoroughly malformed text such as abc the parse fails with an
AttributeError, which is not a decode error. -/
theorem placeholder_index_counterexample :
    placeholderIndex "%(5)sXX" = .ok 5
  ∧ placeholderIndex "abc" = .error PyErr.attrErr
  ∧ (Except.error PyErr.attrErr : Except PyErr Nat)
      ≠ .error PyErr.decodeErr := by
  refine ⟨rfl, rfl, ?_⟩
  intro h
  injection h with h'
  exact absurd h' (by decide)

/-- C6 amended: placeholder parsing extracts the integer index N from a
prefix of the token text of the form percent, open paren, digit run N,
close paren, s (the final s case-insensitive, any trailing text ignored);
on every other text it fails with an AttributeError, not a decode error. -/
theorem placeholder_index_amended :
    (∀ (ds : List Char) (c : Char) (rest : List Char),
        ds ≠ [] → (∀ d ∈ ds, d.isDigit = true) → (c = 's' ∨ c = 'S') →
        placeholderIndex (String.mk ('%' :: '(' :: (ds ++ ')' :: c :: rest)))
          = .ok (digitsToNat ds))
  ∧ (∀ s : String,
        placeholderIndex s = .error PyErr.attrErr
      ∨ ∃ ds c rest, s.data = '%' :: '(' :: (ds ++ ')' :: c :: rest)
          ∧ ds ≠ [] ∧ (∀ d ∈ ds, d.isDigit = true) ∧ (c = 's' ∨ c = 'S')
          ∧ placeholderIndex s = .ok (digitsToNat ds)) := by
  constructor
  · intro ds c rest hds hdig hc
    show phCore ('%' :: '(' :: (ds ++ ')' :: c :: rest)) = .ok (digitsToNat ds)
    rw [phCore, if_pos ⟨rfl, rfl⟩, takeDigits_digits_paren ds (c :: rest) hdig]
    dsimp only
    rw [if_neg hds, if_pos ⟨rfl, hc⟩]
  · intro s
    show phCore s.data = .error PyErr.attrErr ∨ _
    rcases hl : s.data with _ | ⟨c₁, l₁⟩
    · left; rfl
    · rcases l₁ with _ | ⟨c₂, rest⟩
      · left; rfl
      · by_cases hp : c₁ = '%' ∧ c₂ = '('
        · obtain ⟨h₁, h₂⟩ := hp
          subst h₁; subst h₂
          by_cases hds : (takeDigits rest).1 = []
          · left
            rw [phCore, if_pos ⟨rfl, rfl⟩, if_pos hds]
          · rcases hrest : (takeDigits rest).2 with _ | ⟨c₃, l₃⟩
            · left
              rw [phCore, if_pos ⟨rfl, rfl⟩, if_neg hds, hrest]
            · rcases l₃ with _ | ⟨c₄, l₄⟩
              · left
                rw [phCore, if_pos ⟨rfl, rfl⟩, if_neg hds, hrest]
              · by_cases hcc : c₃ = ')' ∧ (c₄ = 's' ∨ c₄ = 'S')
                · right
                  refine ⟨(takeDigits rest).1, c₄, l₄, ?_, hds,
                    (takeDigits_split rest).2, hcc.2, ?_⟩
                  · have hsplit := (takeDigits_split rest).1
                    rw [hrest, hcc.1] at hsplit
                    exact congrArg (fun l => '%' :: '(' :: l) hsplit.symm
                  · show phCore s.data = _
                    rw [hl, phCore, if_pos ⟨rfl, rfl⟩, if_neg hds, hrest]
                    dsimp only
                    rw [if_pos hcc]
                · left
                  rw [phCore, if_pos ⟨rfl, rfl⟩, if_neg hds, hrest]
                  dsimp only
                  rw [if_neg hcc]
        · left
          rw [phCore, if_neg hp]

/-- C6 amended witness: the canonical placeholder %(12)s parses to 12. -/
theorem placeholder_index_amended_witness :
    placeholderIndex (String.mk ('%' :: '(' :: (['1', '2'] ++ ')' :: 's' :: [])))
      = .ok (digitsToNat ['1', '2']) := by
  exact placeholder_index_amended.1 ['1', '2'] 's' []
    (by decide) (by decide) (Or.inl rfl)

/-- Parsed state of JoinConverter: the four names its parse() method
extracts from the JOIN clause and its ON comparison. -/
structure JoinState where
  leftTable : String
  rightTable : String
  leftColumn : String
  rightColumn : String

/-- JoinConverter._lookup: the $lookup stage; the local field is
table-qualified when the left table of the join is not the primary table
of the query (qlt). -/
def joinLookupStage (qlt : String) (j : JoinState) : MVal :=
  let localField :=
    if j.leftTable = qlt then j.leftColumn
    else j.leftTable ++ "." ++ j.leftColumn
  .doc [("$lookup", .doc
    [("from", .str j.rightTable),
     ("localField", .str localField),
     ("foreignField", .str j.rightColumn),
     ("as", .str j.rightTable)])]

/-- InnerJoinConverter.to_mongo: the guard $match on the join key, the
$lookup, then the $unwind of the joined table field. -/
def innerJoinToMongo (qlt : String) (j : JoinState) : List MVal :=
  let matchField :=
    if j.leftTable = qlt then j.leftColumn
    else j.leftTable ++ "." ++ j.leftColumn
  [ .doc [("$match", .doc
      [(matchField, .doc [("$ne", MVal.null), ("$exists", MVal.bool true)])])],
    joinLookupStage qlt j,
    .doc [("$unwind", .str ("$" ++ j.rightTable))] ]

/-- Evaluation of the emitted join-key guard document on a row: the
$exists: True conjunct requires the field to be present and the $ne: None
conjunct requires its value to be non-null. -/
def neExistsGuard (row : List (String × MVal)) (f : String) : Bool :=
  match dlookup row f with
  | none => false
  | some MVal.null => false
  | some _ => true

/-- C2: every INNER JOIN emits exactly the three stages $match (requiring
the local join key non-null and present, table-qualified when the left
table of the join is not the primary table), $lookup (from the joined
table, localField the local join column, foreignField the joined join
column, as the joined table name) and $unwind of the joined table, in that
order; and a row whose join key is absent or null fails the emitted
guard. -/
theorem inner_join_pipeline (qlt : String) (j : JoinState) :
    innerJoinToMongo qlt j =
      [ .doc [("$match", .doc
          [((if j.leftTable = qlt then j.leftColumn
             else j.leftTable ++ "." ++ j.leftColumn),
            .doc [("$ne", MVal.null), ("$exists", MVal.bool true)])])],
        .doc [("$lookup", .doc
          [("from", .str j.rightTable),
           ("localField", .str (if j.leftTable = qlt then j.leftColumn
              else j.leftTable ++ "." ++ j.leftColumn)),
           ("foreignField", .str j.rightColumn),
           ("as", .str j.rightTable)])],
        .doc [("$unwind", .str ("$" ++ j.rightTable))] ]
  ∧ (∀ (row : List (String × MVal)) (f : String),
      dlookup row f = none ∨ dlookup row f = some MVal.null →
      neExistsGuard row f = false) := by
  constructor
  · rfl
  · intro row f h
    rcases h with h | h <;> simp [neExistsGuard, h]

/-- C2 witness: SELECT x.a FROM x JOIN y ON x.id = y.x_id gives the
match guard on id, the lookup from y on id = x_id, and the unwind of y;
and a row with a null id fails the guard. -/
theorem inner_join_pipeline_witness :
    innerJoinToMongo "x" ⟨"x", "y", "id", "x_id"⟩ =
      [ .doc [("$match", .doc
          [("id", .doc [("$ne", MVal.null), ("$exists", MVal.bool true)])])],
        .doc [("$lookup", .doc
          [("from", .str "y"), ("localField", .str "id"),
           ("foreignField", .str "x_id"), ("as", .str "y")])],
        .doc [("$unwind", .str "$y")] ]
  ∧ neExistsGuard [("id", MVal.null)] "id" = false := by
  constructor
  · rw [(inner_join_pipeline "x" ⟨"x", "y", "id", "x_id"⟩).1]
    rfl
  · exact (inner_join_pipeline "x" ⟨"x", "y", "id", "x_id"⟩).2
      [("id", MVal.null)] "id" (Or.inr rfl)

/-- OuterJoinConverter._null_fields: walk the selected column tokens and
collect, for each one whose table resolves to the given table, its column
mapped to null. selectedTokens holds the plain column tokens of the SELECT
list (aggregate-function entries of selected_columns.sql_tokens are
SQLFunc objects from functions.py, outside this embedding). -/
def nullFields (fuel : Nat) (reg : Option TokenAlias) (table : String) :
    List PTok → List (String × MVal) → Except PyErr (List (String × MVal))
  | [], fields => .ok fields
  | tok :: rest, fields =>
    match tableF fuel tok reg with
    | .error e => .error e
    | .ok tbl =>
      if tbl = table then
        match columnF tok with
        | .error e => .error e
        | .ok col =>
            nullFields fuel reg table rest (dinsert fields col MVal.null)
      else nullFields fuel reg table rest fields

/-- OuterJoinConverter.to_mongo: the $lookup, the $unwind with
preserveNullAndEmptyArrays, and the $addFields whose $ifNull replaces a
missing joined sub-document with the all-null placeholder. -/
def outerJoinToMongo (fuel : Nat) (reg : Option TokenAlias) (qlt : String)
    (j : JoinState) (selectedTokens : List PTok) :
    Except PyErr (List MVal) :=
  match nullFields fuel reg j.rightTable selectedTokens [] with
  | .error e => .error e
  | .ok nf =>
    .ok [ joinLookupStage qlt j,
      .doc [("$unwind", .doc
        [("path", .str ("$" ++ j.rightTable)),
         ("preserveNullAndEmptyArrays", MVal.bool true)])],
      .doc [("$addFields", .doc
        [(j.rightTable, .doc
          [("$ifNull", .arr [.str ("$" ++ j.rightTable), .doc nf])])])] ]

/-- The placeholder object the claim describes: every selected column
whose resolved table is the joined table, mapped to null, in order. -/
def nullFieldsSpec (table : String) :
    List (String × String) → List (String × MVal)
  | [] => []
  | r :: rest =>
    if r.1 = table then (r.2, MVal.null) :: nullFieldsSpec table rest
    else nullFieldsSpec table rest

theorem nullFields_spec (fuel : Nat) (reg : Option TokenAlias)
    (table : String) :
    ∀ (toks : List PTok) (rs : List (String × String))
      (fields : List (String × MVal)),
    List.Forall₂ (fun t r => tableF fuel t reg = .ok r.1
      ∧ columnF t = .ok r.2) toks rs →
    ((nullFieldsSpec table rs).map Prod.fst).Nodup →
    (∀ c ∈ (nullFieldsSpec table rs).map Prod.fst,
      c ∉ fields.map Prod.fst) →
    nullFields fuel reg table toks fields =
      .ok (fields ++ nullFieldsSpec table rs) := by
  intro toks rs fields hres
  induction hres generalizing fields with
  | nil => intro _ _; simp [nullFields, nullFieldsSpec]
  | @cons t r ts rs' hr _ ih =>
    intro hnd hfresh
    by_cases ht : r.1 = table
    · rw [nullFieldsSpec, if_pos ht] at hnd hfresh ⊢
      simp only [List.map_cons, List.nodup_cons] at hnd
      have hcol : r.2 ∉ fields.map Prod.fst := hfresh r.2 (by simp)
      have hfresh' : ∀ c ∈ (nullFieldsSpec table rs').map Prod.fst,
          c ∉ (fields ++ [(r.2, MVal.null)]).map Prod.fst := by
        intro c hc
        simp only [List.map_append, List.mem_append]
        push_neg
        constructor
        · exact hfresh c (by simp [hc])
        · intro hmem
          simp only [List.map_cons, List.map_nil,
            List.mem_singleton] at hmem
          exact hnd.1 (hmem ▸ hc)
      rw [nullFields, hr.1]
      dsimp only
      rw [if_pos ht, hr.2]
      dsimp only
      rw [dinsert_fresh fields r.2 MVal.null hcol,
        ih (fields ++ [(r.2, MVal.null)]) hnd.2 hfresh']
      simp
    · rw [nullFieldsSpec, if_neg ht] at hnd hfresh ⊢
      rw [nullFields, hr.1]
      dsimp only
      rw [if_neg ht]
      exact ih fields hnd hfresh

/-- C3: every LEFT/OUTER JOIN emits exactly the three stages $lookup,
$unwind with preserveNullAndEmptyArrays: true, and $addFields whose
$ifNull substitutes, for a missing joined sub-document, a placeholder
object mapping every selected column whose table resolves to the joined
(right) table to null. rs lists the resolved (table, column) pair of each
selected token; distinct placeholder keys keep the dictionary writes
fresh. -/
theorem outer_join_pipeline (fuel : Nat) (reg : Option TokenAlias)
    (qlt : String) (j : JoinState) (selectedTokens : List PTok)
    (rs : List (String × String))
    (hres : List.Forall₂ (fun t r => tableF fuel t reg = .ok r.1
      ∧ columnF t = .ok r.2) selectedTokens rs)
    (hnd : ((nullFieldsSpec j.rightTable rs).map Prod.fst).Nodup) :
    outerJoinToMongo fuel reg qlt j selectedTokens =
      .ok [ .doc [("$lookup", .doc
          [("from", .str j.rightTable),
           ("localField", .str (if j.leftTable = qlt then j.leftColumn
              else j.leftTable ++ "." ++ j.leftColumn)),
           ("foreignField", .str j.rightColumn),
           ("as", .str j.rightTable)])],
        .doc [("$unwind", .doc
          [("path", .str ("$" ++ j.rightTable)),
           ("preserveNullAndEmptyArrays", MVal.bool true)])],
        .doc [("$addFields", .doc
          [(j.rightTable, .doc
            [("$ifNull", .arr [.str ("$" ++ j.rightTable),
              .doc (nullFieldsSpec j.rightTable rs)])])])] ] := by
  rw [outerJoinToMongo,
    nullFields_spec fuel reg j.rightTable selectedTokens rs [] hres hnd
      (by intro c _; simp)]
  rfl

/-- C3 witness: SELECT x.a, y.b, y.c FROM x LEFT JOIN y ON x.id = y.x_id
emits the lookup, the preserving unwind, and the placeholder filling b and
c of y with null. -/
theorem outer_join_pipeline_witness :
    outerJoinToMongo 1 none "x" ⟨"x", "y", "id", "x_id"⟩
      [.ident (some "x") (some "a") none none [] "x.a",
       .ident (some "y") (some "b") none none [] "y.b",
       .ident (some "y") (some "c") none none [] "y.c"] =
      .ok [ .doc [("$lookup", .doc
          [("from", .str "y"), ("localField", .str "id"),
           ("foreignField", .str "x_id"), ("as", .str "y")])],
        .doc [("$unwind", .doc
          [("path", .str "$y"),
           ("preserveNullAndEmptyArrays", MVal.bool true)])],
        .doc [("$addFields", .doc
          [("y", .doc [("$ifNull", .arr [.str "$y",
            .doc [("b", MVal.null), ("c", MVal.null)]])])])] ] := by
  rw [outer_join_pipeline 1 none "x" ⟨"x", "y", "id", "x_id"⟩ _
    [("x", "a"), ("y", "b"), ("y", "c")]
    (by
      refine List.Forall₂.cons ⟨rfl, rfl⟩ ?_
      refine List.Forall₂.cons ⟨rfl, rfl⟩ ?_
      exact List.Forall₂.cons ⟨rfl, rfl⟩ List.Forall₂.nil)
    (by decide)]
  rfl

/-- SQLToken.lhs_column: requires a Comparison node, then the column of
its left child. -/
def lhsColumnF : PTok → Except PyErr String
  | .cmp l _ _ => columnF l
  | _ => .error .decodeErr

/-- SQLToken.rhs_indexes: the source checks no node kind first, so reading
.right of a non-Comparison raises AttributeError. For a Comparison: a
Name.Placeholder right side parses its index with placeholder_index, a
NULL keyword yields no index, anything else is a decode error. -/
def rhsIndexes : PTok → Except PyErr (Option Nat)
  | .cmp _ rtok _ =>
    match rtok with
    | .placeholderTok v =>
      match placeholderIndex v with
      | .error e => .error e
      | .ok i => .ok (some i)
    | .keyword kw _ => if kw = "NULL" then .ok none else .error .decodeErr
    | _ => .error .decodeErr
  | _ => .error .attrErr

/-- The dictionary built by the SetConverter.to_mongo comprehension: each
assignment token contributes lhs_column mapped to params[rhs_indexes],
or to null when rhs_indexes is None; an index beyond the parameter list
raises IndexError. -/
def setEntries (params : List MVal) :
    List PTok → List (String × MVal) → Except PyErr (List (String × MVal))
  | [], acc => .ok acc
  | sql :: rest, acc =>
    match lhsColumnF sql with
    | .error e => .error e
    | .ok col =>
      match rhsIndexes sql with
      | .error e => .error e
      | .ok none => setEntries params rest (dinsert acc col MVal.null)
      | .ok (some i) =>
        match params.get? i with
        | none => .error .indexErr
        | some v => setEntries params rest (dinsert acc col v)

/-- SetConverter.to_mongo: the update document wrapping the $set
dictionary. -/
def setToMongo (params : List MVal) (sqlTokens : List PTok) :
    Except PyErr MVal :=
  match setEntries params sqlTokens [] with
  | .error e => .error e
  | .ok entries => .ok (.doc [("update", .doc [("$set", .doc entries)])])

/-- The $set mapping the claim describes: column to P[i] for the extracted
index i, and column to null for a NULL right-hand side. -/
def setEntriesSpec (params : List MVal) (rs : List (String × Option Nat)) :
    List (String × MVal) :=
  rs.map (fun r => (r.1,
    match r.2 with
    | none => MVal.null
    | some i => (params.get? i).getD MVal.null))

theorem setEntries_spec (params : List MVal) :
    ∀ (toks : List PTok) (rs : List (String × Option Nat))
      (acc : List (String × MVal)),
    List.Forall₂ (fun t r => lhsColumnF t = .ok r.1
      ∧ rhsIndexes t = .ok r.2
      ∧ ∀ i, r.2 = some i → i < params.length) toks rs →
    (rs.map Prod.fst).Nodup →
    (∀ c ∈ rs.map Prod.fst, c ∉ acc.map Prod.fst) →
    setEntries params toks acc = .ok (acc ++ setEntriesSpec params rs) := by
  intro toks rs acc hres
  induction hres generalizing acc with
  | nil => intro _ _; simp [setEntries, setEntriesSpec]
  | @cons t r ts rs' hr _ ih =>
    intro hnd hfresh
    simp only [List.map_cons, List.nodup_cons] at hnd
    have hcol : r.1 ∉ acc.map Prod.fst := hfresh r.1 (by simp)
    have hfresh' : ∀ v, ∀ c ∈ rs'.map Prod.fst,
        c ∉ (acc ++ [(r.1, v)]).map Prod.fst := by
      intro v c hc
      simp only [List.map_append, List.mem_append]
      push_neg
      constructor
      · exact hfresh c (by simp [hc])
      · intro hmem
        simp only [List.map_cons, List.map_nil,
          List.mem_singleton] at hmem
        exact hnd.1 (hmem ▸ hc)
    rcases hr with ⟨hl, hri, hlt⟩
    rw [setEntries, hl]
    dsimp only
    rw [hri]
    rcases hidx : r.2 with _ | i
    · dsimp only
      rw [dinsert_fresh acc r.1 MVal.null hcol,
        ih (acc ++ [(r.1, MVal.null)]) hnd.2 (hfresh' MVal.null)]
      simp [setEntriesSpec, hidx]
    · dsimp only
      have hi : i < params.length := hlt i hidx
      rcases hv : params.get? i with _ | v
      · rw [List.get?_eq_none] at hv
        omega
      · dsimp only
        rw [dinsert_fresh acc r.1 v hcol,
          ih (acc ++ [(r.1, v)]) hnd.2 (hfresh' v)]
        simp [setEntriesSpec, hidx, ← List.get?_eq_getElem?, hv]

/-- C4: for an UPDATE SET clause whose assignments resolve to the
column/index pairs rs (with every used index inside the parameter list P
and the assigned columns distinct), to_mongo returns the update document
whose $set maps each column to P[i] for the index i extracted from its
placeholder, and to null when the right-hand side is the NULL literal,
regardless of the contents of P. -/
theorem set_update_resolves (params : List MVal) (toks : List PTok)
    (rs : List (String × Option Nat))
    (hres : List.Forall₂ (fun t r => lhsColumnF t = .ok r.1
      ∧ rhsIndexes t = .ok r.2
      ∧ ∀ i, r.2 = some i → i < params.length) toks rs)
    (hnd : (rs.map Prod.fst).Nodup) :
    setToMongo params toks =
      .ok (.doc [("update",
        .doc [("$set", .doc (setEntriesSpec params rs))])]) := by
  rw [setToMongo,
    setEntries_spec params toks rs [] hres hnd (by intro c _; simp)]
  rfl

/-- C4 witness: UPDATE SET y = %(0)s, z = NULL with params [7] produces
update: $set: y to 7 and z to null. -/
theorem set_update_resolves_witness :
    setToMongo [MVal.int 7]
      [.cmp (.ident none (some "y") none none [] "y")
        (.placeholderTok "%(0)s") "y = %(0)s",
       .cmp (.ident none (some "z") none none [] "z")
        (.keyword "NULL" "NULL") "z = NULL"] =
      .ok (.doc [("update", .doc [("$set",
        .doc [("y", MVal.int 7), ("z", MVal.null)])])]) := by
  rw [set_update_resolves [MVal.int 7] _ [("y", some 0), ("z", none)]
    (by
      refine List.Forall₂.cons ⟨rfl, rfl, ?_⟩ ?_
      · intro i hi
        injection hi with h
        subst h
        decide
      · refine List.Forall₂.cons ⟨rfl, rfl, ?_⟩ List.Forall₂.nil
        intro i hi
        exact Option.noConfusion hi)
    (by decide)]
  rfl

theorem fresh_append {β : Type} (d : List (String × β)) (e : String × β)
    (keys : List String) (hnotin : e.1 ∉ keys)
    (hfresh : ∀ k ∈ keys, k ∉ d.map Prod.fst) :
    ∀ k ∈ keys, k ∉ (d ++ [e]).map Prod.fst := by
  intro k hk
  simp only [List.map_append, List.mem_append, List.map_cons, List.map_nil,
    List.mem_singleton]
  push_neg
  exact ⟨hfresh k hk, fun he => hnotin (he ▸ hk)⟩

/-- An entry of selected_columns.sql_tokens as GroupbyConverter.to_mongo
consumes it: either a plain SQLToken column, or an SQLFunc aggregate
represented by the alias and the accumulator document it exposes (SQLFunc
itself lives in functions.py). -/
inductive SelItem where
  | tok (t : PTok)
  | func (funcAlias : String) (acc : MVal)

/-- _Tokens2Id.to_id: build the composite _id from the grouped tokens. A
column of the primary table becomes column mapped to the dollar-column
path; any other column is nested under its table (the KeyError branch
creates the nested document; an existing non-document entry under that key
raises TypeError). -/
def toId (fuel : Nat) (reg : Option TokenAlias) (leftTable : String) :
    List PTok → List (String × MVal) → Except PyErr (List (String × MVal))
  | [], acc => .ok acc
  | iden :: rest, acc =>
    match tableF fuel iden reg with
    | .error e => .error e
    | .ok tbl =>
      match columnF iden with
      | .error e => .error e
      | .ok col =>
        if tbl = leftTable then
          toId fuel reg leftTable rest
            (dinsert acc col (.str ("$" ++ col)))
        else
          match dlookup acc tbl with
          | some (MVal.doc sub) =>
            toId fuel reg leftTable rest
              (dinsert acc tbl (.doc (dinsert sub col
                (.str ("$" ++ tbl ++ "." ++ col)))))
          | some _ => .error .typeErr
          | none =>
            toId fuel reg leftTable rest
              (dinsert acc tbl (.doc [(col,
                .str ("$" ++ tbl ++ "." ++ col))]))

/-- The loop of GroupbyConverter.to_mongo over the selected columns: a
plain primary-table column projects from the composite _id, another plain
column projects its table-qualified name from the _id path (the source
writes that path without a dollar sign), and each aggregate function adds
its accumulator to the $group and True to the $project. -/
def gbLoop (fuel : Nat) (reg : Option TokenAlias) (leftTable : String) :
    List SelItem → List (String × MVal) → List (String × MVal) →
    Except PyErr (List (String × MVal) × List (String × MVal))
  | [], group, project => .ok (group, project)
  | SelItem.tok t :: rest, group, project =>
    match tableF fuel t reg with
    | .error e => .error e
    | .ok tbl =>
      match columnF t with
      | .error e => .error e
      | .ok col =>
        if tbl = leftTable then
          gbLoop fuel reg leftTable rest group
            (dinsert project col (.str ("$_id." ++ col)))
        else
          gbLoop fuel reg leftTable rest group
            (dinsert project (tbl ++ "." ++ col)
              (.str ("_id." ++ tbl ++ "." ++ col)))
  | SelItem.func a acc :: rest, group, project =>
    gbLoop fuel reg leftTable rest (dinsert group a acc)
      (dinsert project a (MVal.bool true))

/-- GroupbyConverter.to_mongo: the $group holding the composite _id plus
the function accumulators, then the $project with _id False remapping the
selected columns, exactly two stages in that order. -/
def groupbyToMongo (fuel : Nat) (reg : Option TokenAlias)
    (leftTable : String) (selected : List SelItem)
    (groupedTokens : List PTok) : Except PyErr (List MVal) :=
  match toId fuel reg leftTable groupedTokens [] with
  | .error e => .error e
  | .ok idd =>
    match gbLoop fuel reg leftTable selected
        [("_id", MVal.doc idd)] [("_id", MVal.bool false)] with
    | .error e => .error e
    | .ok (group, project) =>
      .ok [MVal.doc [("$group", MVal.doc group)],
           MVal.doc [("$project", MVal.doc project)]]

/-- The _id dictionary key a resolved grouped pair occupies. -/
def idKeySpec (lt : String) (r : String × String) : String :=
  if r.1 = lt then r.2 else r.1

/-- A resolved selected entry: a plain column with its resolved table and
column, or an aggregate function with its alias and accumulator. -/
def SelRes : Type := (String × String) ⊕ (String × MVal)

/-- The $project dictionary key a resolved selected entry occupies. -/
def projKeySpec (lt : String) : SelRes → String
  | Sum.inl r => if r.1 = lt then r.2 else r.1 ++ "." ++ r.2
  | Sum.inr f => f.1

/-- The $project entry the claim describes for one resolved selected
entry. -/
def projEntrySpec (lt : String) : SelRes → String × MVal
  | Sum.inl r =>
    if r.1 = lt then (r.2, .str ("$_id." ++ r.2))
    else (r.1 ++ "." ++ r.2, .str ("_id." ++ r.1 ++ "." ++ r.2))
  | Sum.inr f => (f.1, MVal.bool true)

/-- The accumulator entries the aggregate functions add to the $group, in
selection order. -/
def funcEntriesSpec : List SelRes → List (String × MVal)
  | [] => []
  | Sum.inl _ :: rest => funcEntriesSpec rest
  | Sum.inr f :: rest => f :: funcEntriesSpec rest

/-- Resolution of one selected item to its resolved form. -/
def selRel (fuel : Nat) (reg : Option TokenAlias) : SelItem → SelRes → Prop
  | SelItem.tok t, Sum.inl r =>
      tableF fuel t reg = .ok r.1 ∧ columnF t = .ok r.2
  | SelItem.func a acc, Sum.inr f => f.1 = a ∧ f.2 = acc
  | _, _ => False

theorem gbLoop_spec (fuel : Nat) (reg : Option TokenAlias) (lt : String) :
    ∀ (items : List SelItem) (sels : List SelRes)
      (group project : List (String × MVal)),
    List.Forall₂ (selRel fuel reg) items sels →
    ((funcEntriesSpec sels).map Prod.fst).Nodup →
    (∀ k ∈ (funcEntriesSpec sels).map Prod.fst, k ∉ group.map Prod.fst) →
    (sels.map (projKeySpec lt)).Nodup →
    (∀ k ∈ sels.map (projKeySpec lt), k ∉ project.map Prod.fst) →
    gbLoop fuel reg lt items group project =
      .ok (group ++ funcEntriesSpec sels,
           project ++ sels.map (projEntrySpec lt)) := by
  intro items sels group project hres
  induction hres generalizing group project with
  | nil =>
    intro _ _ _ _
    simp [gbLoop, funcEntriesSpec]
  | @cons item sel ts ss hr _ ih =>
    intro hgnd hgfresh hpnd hpfresh
    rcases item with t | ⟨a, acc⟩ <;> rcases sel with r | f
    · rcases hr with ⟨h1, h2⟩
      simp only [List.map_cons, List.nodup_cons] at hpnd
      have hpkey : projKeySpec lt (Sum.inl r) ∉ project.map Prod.fst :=
        hpfresh _ (by simp)
      have hptail : ∀ k ∈ ss.map (projKeySpec lt),
          k ∉ project.map Prod.fst := fun k hk => hpfresh k (by simp [hk])
      by_cases ht : r.1 = lt
      · have hkeq : projKeySpec lt (Sum.inl r) = r.2 := by
          simp [projKeySpec, ht]
        rw [gbLoop, h1]
        dsimp only
        rw [h2]
        dsimp only
        rw [if_pos ht]
        rw [dinsert_fresh project r.2 _ (hkeq ▸ hpkey)]
        rw [ih group (project ++ [(r.2, MVal.str ("$_id." ++ r.2))])
          hgnd hgfresh hpnd.2
          (fresh_append project _ _ (hkeq ▸ hpnd.1) hptail)]
        simp [projEntrySpec, funcEntriesSpec, ht]
      · have hkeq : projKeySpec lt (Sum.inl r) = r.1 ++ "." ++ r.2 := by
          simp [projKeySpec, ht]
        rw [gbLoop, h1]
        dsimp only
        rw [h2]
        dsimp only
        rw [if_neg ht]
        rw [dinsert_fresh project (r.1 ++ "." ++ r.2) _ (hkeq ▸ hpkey)]
        rw [ih group (project ++ [(r.1 ++ "." ++ r.2,
            MVal.str ("_id." ++ r.1 ++ "." ++ r.2))])
          hgnd hgfresh hpnd.2
          (fresh_append project _ _ (hkeq ▸ hpnd.1) hptail)]
        simp [projEntrySpec, funcEntriesSpec, ht]
    · exact hr.elim
    · exact hr.elim
    · rcases hr with ⟨hf1, hf2⟩
      simp only [funcEntriesSpec, List.map_cons, List.nodup_cons] at hgnd
      simp only [List.map_cons, List.nodup_cons] at hpnd
      have hgkey : f.1 ∉ group.map Prod.fst :=
        hgfresh _ (by simp [funcEntriesSpec])
      have hgtail : ∀ k ∈ (funcEntriesSpec ss).map Prod.fst,
          k ∉ group.map Prod.fst :=
        fun k hk => hgfresh k (by simp [funcEntriesSpec, hk])
      have hpkey : f.1 ∉ project.map Prod.fst := hpfresh _ (by
        simp [projKeySpec])
      have hptail : ∀ k ∈ ss.map (projKeySpec lt),
          k ∉ project.map Prod.fst := fun k hk => hpfresh k (by simp [hk])
      rw [gbLoop, ← hf1, ← hf2]
      rw [dinsert_fresh group f.1 f.2 hgkey,
        dinsert_fresh project f.1 (MVal.bool true) hpkey]
      rw [ih (group ++ [(f.1, f.2)]) (project ++ [(f.1, MVal.bool true)])
        hgnd.2 (fresh_append group (f.1, f.2) _ hgnd.1 hgtail)
        hpnd.2 (fresh_append project (f.1, MVal.bool true) _ hpnd.1 hptail)]
      simp [funcEntriesSpec, projEntrySpec]

/-- Keys of a dictionary after an insertion. -/
theorem mem_keys_dinsert {α : Type} (d : List (String × α)) (k : String)
    (v : α) (k' : String) :
    k' ∈ (dinsert d k v).map Prod.fst ↔ k' = k ∨ k' ∈ d.map Prod.fst := by
  induction d with
  | nil => simp [dinsert]
  | cons p rest ih =>
    obtain ⟨k₀, v₀⟩ := p
    by_cases hk : k₀ = k
    · rw [dinsert, if_pos hk]
      subst hk
      simp only [List.map_cons, List.mem_cons]
      tauto
    · rw [dinsert, if_neg hk]
      simp only [List.map_cons, List.mem_cons, ih]
      tauto

/-- A lookup misses exactly when the key is absent. -/
theorem dlookup_none_iff {α : Type} (d : List (String × α)) (k : String) :
    dlookup d k = none ↔ k ∉ d.map Prod.fst := by
  induction d with
  | nil => simp [dlookup]
  | cons p rest ih =>
    obtain ⟨k₀, v₀⟩ := p
    by_cases hk : k₀ = k
    · rw [dlookup, if_pos hk]
      subst hk
      simp
    · rw [dlookup, if_neg hk]
      simp only [List.map_cons, List.mem_cons, ih]
      constructor
      · intro h
        push_neg
        exact ⟨fun he => hk he.symm, h⟩
      · intro h
        push_neg at h
        exact h.2

/-- The composite-_id shape the claim describes, for an _id dictionary
idd built from the resolved grouped pairs grs: the keys of idd are
exactly the grouped primary-table column names and the other grouped
table names; each grouped primary-table column maps to its dollar-column
path; and each other grouped column is found nested under its table name
with its dollar-qualified path, several columns of one table sharing one
nested document. -/
def IdChar (lt : String) (grs : List (String × String))
    (idd : List (String × MVal)) : Prop :=
  (∀ k, k ∈ idd.map Prod.fst ↔ ∃ r ∈ grs, idKeySpec lt r = k)
  ∧ (∀ r ∈ grs, r.1 = lt →
      dlookup idd r.2 = some (MVal.str ("$" ++ r.2)))
  ∧ (∀ r ∈ grs, r.1 ≠ lt →
      ∃ sub, dlookup idd r.1 = some (MVal.doc sub)
        ∧ dlookup sub r.2 = some (MVal.str ("$" ++ r.1 ++ "." ++ r.2)))

/-- to_id builds a composite _id satisfying the claim characterization,
for every grouped-token list (several columns of one non-primary table
accumulate in its nested document, duplicates rewrite the identical
entry), provided no grouped primary-table column shares its name with a
grouped non-primary table (the clash on which to_id raises TypeError). -/
theorem toId_char (fuel : Nat) (reg : Option TokenAlias) (lt : String) :
    ∀ (gts : List PTok) (grs done : List (String × String))
      (acc : List (String × MVal)),
    List.Forall₂ (fun t r => tableF fuel t reg = .ok r.1
      ∧ columnF t = .ok r.2) gts grs →
    (∀ r ∈ done ++ grs, r.1 = lt →
      ∀ r' ∈ done ++ grs, r'.1 ≠ lt → r.2 ≠ r'.1) →
    IdChar lt done acc →
    ∃ idd, toId fuel reg lt gts acc = .ok idd
      ∧ IdChar lt (done ++ grs) idd := by
  intro gts grs done acc hres
  induction hres generalizing done acc with
  | nil =>
    intro _ hP
    exact ⟨acc, by rw [toId], by simpa using hP⟩
  | @cons t r ts rs' hr _ ih =>
    intro hclash hP
    rw [List.append_cons] at hclash ⊢
    obtain ⟨hk, hprim, hnp⟩ := hP
    have hrmem : r ∈ done ++ [r] ++ rs' := by simp
    by_cases ht : r.1 = lt
    · -- a grouped column of the primary table
      have hstep : toId fuel reg lt (t :: ts) acc =
          toId fuel reg lt ts
            (dinsert acc r.2 (MVal.str ("$" ++ r.2))) := by
        rw [toId, hr.1]
        dsimp only
        rw [hr.2]
        dsimp only
        rw [if_pos ht]
      rw [hstep]
      refine ih (done ++ [r])
        (dinsert acc r.2 (MVal.str ("$" ++ r.2))) hclash ⟨?_, ?_, ?_⟩
      · intro k
        rw [mem_keys_dinsert]
        constructor
        · rintro (rfl | hmem)
          · exact ⟨r, by simp, by simp [idKeySpec, ht]⟩
          · obtain ⟨r₀, h₀, hk₀⟩ := (hk k).mp hmem
            exact ⟨r₀, by simp [h₀], hk₀⟩
        · rintro ⟨r₀, h₀, hk₀⟩
          rcases List.mem_append.mp h₀ with hd | hsg
          · exact Or.inr ((hk k).mpr ⟨r₀, hd, hk₀⟩)
          · rw [List.mem_singleton] at hsg
            subst hsg
            rw [← hk₀]
            simp [idKeySpec, ht]
      · intro r₀ h₀ h₀p
        rcases List.mem_append.mp h₀ with hd | hsg
        · by_cases hc : r₀.2 = r.2
          · rw [hc, dlookup_dinsert_self]
          · rw [dlookup_dinsert_ne acc r.2 r₀.2 _ hc]
            exact hprim r₀ hd h₀p
        · rw [List.mem_singleton] at hsg
          subst hsg
          rw [dlookup_dinsert_self]
      · intro r₀ h₀ h₀p
        rcases List.mem_append.mp h₀ with hd | hsg
        · have hne : r₀.1 ≠ r.2 :=
            Ne.symm (hclash r hrmem ht r₀ (by simp [hd]) h₀p)
          obtain ⟨sub, hs₁, hs₂⟩ := hnp r₀ hd h₀p
          refine ⟨sub, ?_, hs₂⟩
          rw [dlookup_dinsert_ne acc r.2 r₀.1 _ hne]
          exact hs₁
        · rw [List.mem_singleton] at hsg
          subst hsg
          exact absurd ht h₀p
    · -- a grouped column of another table, nested under the table name
      rcases hdl : dlookup acc r.1 with _ | v
      · -- the table key is new: create its nested document
        have hstep : toId fuel reg lt (t :: ts) acc =
            toId fuel reg lt ts (dinsert acc r.1
              (MVal.doc [(r.2,
                MVal.str ("$" ++ r.1 ++ "." ++ r.2))])) := by
          rw [toId, hr.1]
          dsimp only
          rw [hr.2]
          dsimp only
          rw [if_neg ht, hdl]
        rw [hstep]
        refine ih (done ++ [r]) _ hclash ⟨?_, ?_, ?_⟩
        · intro k
          rw [mem_keys_dinsert]
          constructor
          · rintro (rfl | hmem)
            · exact ⟨r, by simp, by simp [idKeySpec, ht]⟩
            · obtain ⟨r₀, h₀, hk₀⟩ := (hk k).mp hmem
              exact ⟨r₀, by simp [h₀], hk₀⟩
          · rintro ⟨r₀, h₀, hk₀⟩
            rcases List.mem_append.mp h₀ with hd | hsg
            · exact Or.inr ((hk k).mpr ⟨r₀, hd, hk₀⟩)
            · rw [List.mem_singleton] at hsg
              subst hsg
              rw [← hk₀]
              simp [idKeySpec, ht]
        · intro r₀ h₀ h₀p
          rcases List.mem_append.mp h₀ with hd | hsg
          · have hne : r₀.2 ≠ r.1 :=
              hclash r₀ (by simp [hd]) h₀p r hrmem ht
            rw [dlookup_dinsert_ne acc r.1 r₀.2 _ hne]
            exact hprim r₀ hd h₀p
          · rw [List.mem_singleton] at hsg
            subst hsg
            exact absurd h₀p ht
        · intro r₀ h₀ h₀p
          rcases List.mem_append.mp h₀ with hd | hsg
          · by_cases hte : r₀.1 = r.1
            · obtain ⟨sub, hs₁, _⟩ := hnp r₀ hd h₀p
              rw [hte, hdl] at hs₁
              exact Option.noConfusion hs₁
            · obtain ⟨sub, hs₁, hs₂⟩ := hnp r₀ hd h₀p
              refine ⟨sub, ?_, hs₂⟩
              rw [dlookup_dinsert_ne acc r.1 r₀.1 _ hte]
              exact hs₁
          · rw [List.mem_singleton] at hsg
            subst hsg
            refine ⟨[(r₀.2, MVal.str ("$" ++ r₀.1 ++ "." ++ r₀.2))],
              dlookup_dinsert_self _ _ _, ?_⟩
            simp [dlookup]
      · -- the table key is present: it must hold a nested document
        have hmemk : r.1 ∈ acc.map Prod.fst := by
          by_contra hno
          rw [(dlookup_none_iff acc r.1).mpr hno] at hdl
          exact Option.noConfusion hdl
        obtain ⟨r₀, h₀, hk₀⟩ := (hk r.1).mp hmemk
        by_cases h₀p : r₀.1 = lt
        · exfalso
          have hcol : r₀.2 = r.1 := by
            rw [← hk₀]
            simp [idKeySpec, h₀p]
          exact hclash r₀ (by simp [h₀]) h₀p r hrmem ht hcol
        · have hte : r₀.1 = r.1 := by
            rw [← hk₀]
            simp [idKeySpec, h₀p]
          obtain ⟨sub, hs₁, _⟩ := hnp r₀ h₀ h₀p
          rw [hte] at hs₁
          have hstep : toId fuel reg lt (t :: ts) acc =
              toId fuel reg lt ts (dinsert acc r.1
                (MVal.doc (dinsert sub r.2
                  (MVal.str ("$" ++ r.1 ++ "." ++ r.2))))) := by
            rw [toId, hr.1]
            dsimp only
            rw [hr.2]
            dsimp only
            rw [if_neg ht, hs₁]
          rw [hstep]
          refine ih (done ++ [r]) _ hclash ⟨?_, ?_, ?_⟩
          · intro k
            rw [mem_keys_dinsert]
            constructor
            · rintro (rfl | hmem)
              · exact ⟨r, by simp, by simp [idKeySpec, ht]⟩
              · obtain ⟨r₁, h₁, hk₁⟩ := (hk k).mp hmem
                exact ⟨r₁, by simp [h₁], hk₁⟩
            · rintro ⟨r₁, h₁, hk₁⟩
              rcases List.mem_append.mp h₁ with hd | hsg
              · exact Or.inr ((hk k).mpr ⟨r₁, hd, hk₁⟩)
              · rw [List.mem_singleton] at hsg
                subst hsg
                rw [← hk₁]
                simp [idKeySpec, ht]
          · intro r₁ h₁ h₁p
            rcases List.mem_append.mp h₁ with hd | hsg
            · have hne : r₁.2 ≠ r.1 :=
                hclash r₁ (by simp [hd]) h₁p r hrmem ht
              rw [dlookup_dinsert_ne acc r.1 r₁.2 _ hne]
              exact hprim r₁ hd h₁p
            · rw [List.mem_singleton] at hsg
              subst hsg
              exact absurd h₁p ht
          · intro r₁ h₁ h₁p
            rcases List.mem_append.mp h₁ with hd | hsg
            · by_cases hte₁ : r₁.1 = r.1
              · obtain ⟨sub₁, ht₁, ht₂⟩ := hnp r₁ hd h₁p
                rw [hte₁, hs₁] at ht₁
                have hseq : sub₁ = sub := by
                  injection ht₁ with h'
                  injection h' with h''
                  exact h''.symm
                refine ⟨dinsert sub r.2
                  (MVal.str ("$" ++ r.1 ++ "." ++ r.2)), ?_, ?_⟩
                · rw [hte₁]
                  exact dlookup_dinsert_self acc r.1 _
                · by_cases hc : r₁.2 = r.2
                  · rw [hc, hte₁, dlookup_dinsert_self]
                  · rw [dlookup_dinsert_ne sub r.2 r₁.2 _ hc]
                    rw [hseq] at ht₂
                    exact ht₂
              · obtain ⟨sub₁, ht₁, ht₂⟩ := hnp r₁ hd h₁p
                refine ⟨sub₁, ?_, ht₂⟩
                rw [dlookup_dinsert_ne acc r.1 r₁.1 _ hte₁]
                exact ht₁
            · rw [List.mem_singleton] at hsg
              subst hsg
              exact ⟨dinsert sub r₁.2
                  (MVal.str ("$" ++ r₁.1 ++ "." ++ r₁.2)),
                dlookup_dinsert_self _ _ _, dlookup_dinsert_self _ _ _⟩

/-- C1 amended: provided no grouped primary-table column shares its name
with a grouped non-primary table (on such a clash to_mongo raises
TypeError instead, as the final conjunct evaluates on GROUP BY x.y, y.c),
GroupbyConverter.to_mongo returns exactly two pipeline stages in order:
the $group whose composite _id maps each grouped column resolving to the
primary table to its dollar-column path and nests every other grouped
column under its table name (several columns of one table accumulating in
one nested document), followed by the function accumulators under their
aliases; then the $project with _id False remapping each selected plain
column from the composite _id and setting each function alias to True. -/
theorem groupby_pipeline (fuel : Nat) (reg : Option TokenAlias)
    (lt : String) (selected : List SelItem) (groupedTokens : List PTok)
    (grs : List (String × String)) (sels : List SelRes)
    (hg : List.Forall₂ (fun t r => tableF fuel t reg = .ok r.1
      ∧ columnF t = .ok r.2) groupedTokens grs)
    (hs : List.Forall₂ (selRel fuel reg) selected sels)
    (hclash : ∀ r ∈ grs, r.1 = lt → ∀ r' ∈ grs, r'.1 ≠ lt → r.2 ≠ r'.1)
    (hfnd : ("_id" :: (funcEntriesSpec sels).map Prod.fst).Nodup)
    (hpnd : ("_id" :: sels.map (projKeySpec lt)).Nodup) :
    (∃ idd,
      groupbyToMongo fuel reg lt selected groupedTokens =
        .ok [MVal.doc [("$group", MVal.doc
              (("_id", MVal.doc idd) :: funcEntriesSpec sels))],
             MVal.doc [("$project", MVal.doc
              (("_id", MVal.bool false)
                :: sels.map (projEntrySpec lt)))]]
      ∧ IdChar lt grs idd)
  ∧ groupbyToMongo 1 none "x" []
      [.ident (some "x") (some "y") none none [] "x.y",
       .ident (some "y") (some "c") none none [] "y.c"]
      = .error PyErr.typeErr := by
  constructor
  · simp only [List.nodup_cons] at hfnd hpnd
    obtain ⟨idd, htoId, hchar⟩ :=
      toId_char fuel reg lt groupedTokens grs [] [] hg hclash
        ⟨by simp, by simp, by simp⟩
    refine ⟨idd, ?_, hchar⟩
    rw [groupbyToMongo, htoId]
    dsimp only
    rw [gbLoop_spec fuel reg lt selected sels
      [("_id", MVal.doc idd)] [("_id", MVal.bool false)] hs hfnd.2
      (by
        intro k hk'
        simp only [List.map_cons, List.map_nil, List.mem_singleton]
        intro he
        exact hfnd.1 (he ▸ hk'))
      hpnd.2
      (by
        intro k hk'
        simp only [List.map_cons, List.map_nil, List.mem_singleton]
        intro he
        exact hpnd.1 (he ▸ hk'))]
    rfl
  · rfl

/-- C1 amended witness: SELECT x.a, y.a, y.b, COUNT(b) FROM x ... GROUP
BY x.a, y.a, y.b gives exactly the two stages, the primary column a
mapped to its dollar path in the composite _id and the two y columns
accumulated inside one nested document under y. -/
theorem groupby_pipeline_witness :
    ∃ idd,
      groupbyToMongo 1 none "x"
        [SelItem.tok (.ident (some "x") (some "a") none none [] "x.a"),
         SelItem.tok (.ident (some "y") (some "a") none none [] "y.a"),
         SelItem.tok (.ident (some "y") (some "b") none none [] "y.b"),
         SelItem.func "b__count" (MVal.doc [("$sum", MVal.int 1)])]
        [.ident (some "x") (some "a") none none [] "x.a",
         .ident (some "y") (some "a") none none [] "y.a",
         .ident (some "y") (some "b") none none [] "y.b"] =
        .ok [MVal.doc [("$group", MVal.doc
              [("_id", MVal.doc idd),
               ("b__count", MVal.doc [("$sum", MVal.int 1)])])],
             MVal.doc [("$project", MVal.doc
              [("_id", MVal.bool false),
               ("a", MVal.str "$_id.a"),
               ("y.a", MVal.str "_id.y.a"),
               ("y.b", MVal.str "_id.y.b"),
               ("b__count", MVal.bool true)])]]
      ∧ dlookup idd "a" = some (MVal.str "$a")
      ∧ ∃ sub, dlookup idd "y" = some (MVal.doc sub)
          ∧ dlookup sub "a" = some (MVal.str "$y.a")
          ∧ dlookup sub "b" = some (MVal.str "$y.b") := by
  obtain ⟨idd, heq, hchar⟩ := (groupby_pipeline 1 none "x"
    [SelItem.tok (.ident (some "x") (some "a") none none [] "x.a"),
     SelItem.tok (.ident (some "y") (some "a") none none [] "y.a"),
     SelItem.tok (.ident (some "y") (some "b") none none [] "y.b"),
     SelItem.func "b__count" (MVal.doc [("$sum", MVal.int 1)])]
    [.ident (some "x") (some "a") none none [] "x.a",
     .ident (some "y") (some "a") none none [] "y.a",
     .ident (some "y") (some "b") none none [] "y.b"]
    [("x", "a"), ("y", "a"), ("y", "b")]
    [Sum.inl ("x", "a"), Sum.inl ("y", "a"), Sum.inl ("y", "b"),
     Sum.inr ("b__count", MVal.doc [("$sum", MVal.int 1)])]
    (List.Forall₂.cons ⟨rfl, rfl⟩ (List.Forall₂.cons ⟨rfl, rfl⟩
      (List.Forall₂.cons ⟨rfl, rfl⟩ List.Forall₂.nil)))
    (List.Forall₂.cons
      (show selRel 1 none
        (SelItem.tok (.ident (some "x") (some "a") none none [] "x.a"))
        (Sum.inl ("x", "a")) from ⟨rfl, rfl⟩)
      (List.Forall₂.cons
        (show selRel 1 none
          (SelItem.tok (.ident (some "y") (some "a") none none [] "y.a"))
          (Sum.inl ("y", "a")) from ⟨rfl, rfl⟩)
        (List.Forall₂.cons
          (show selRel 1 none
            (SelItem.tok (.ident (some "y") (some "b") none none []
              "y.b")) (Sum.inl ("y", "b")) from ⟨rfl, rfl⟩)
          (List.Forall₂.cons
            (show selRel 1 none
              (SelItem.func "b__count" (MVal.doc [("$sum", MVal.int 1)]))
              (Sum.inr ("b__count", MVal.doc [("$sum", MVal.int 1)]))
              from ⟨rfl, rfl⟩)
            List.Forall₂.nil))))
    (by decide) (by decide) (by decide)).1
  obtain ⟨s1, hy1, ha⟩ := hchar.2.2 ("y", "a") (by simp) (by decide)
  obtain ⟨s2, hy2, hb⟩ := hchar.2.2 ("y", "b") (by simp) (by decide)
  have hseq : s2 = s1 := by
    have h := hy1.symm.trans hy2
    injection h with h'
    injection h' with h''
    exact h''.symm
  rw [hseq] at hb
  exact ⟨idd, heq, hchar.2.1 ("x", "a") (by simp) rfl, s1, hy1, ha, hb⟩

/-- C1 counterexample: on the literal query SELECT a, COUNT(b) FROM x
GROUP BY a the grouped token a carries no qualifying prefix, so its table
resolves to a itself, not to the primary table x; the code therefore nests
the _id under a and qualifies the projection, instead of producing the
flat pipeline the claim asserts for this query. -/
theorem groupby_pipeline_counterexample :
    groupbyToMongo 1 none "x"
      [SelItem.tok (.ident none (some "a") none none [] "a"),
       SelItem.func "b__count" (MVal.doc [("$sum", MVal.int 1)])]
      [.ident none (some "a") none none [] "a"] =
      .ok [MVal.doc [("$group", MVal.doc
            [("_id", MVal.doc [("a", MVal.doc [("a", MVal.str "$a.a")])]),
             ("b__count", MVal.doc [("$sum", MVal.int 1)])])],
           MVal.doc [("$project", MVal.doc
            [("_id", MVal.bool false),
             ("a.a", MVal.str "_id.a.a"),
             ("b__count", MVal.bool true)])]]
  ∧ groupbyToMongo 1 none "x"
      [SelItem.tok (.ident none (some "a") none none [] "a"),
       SelItem.func "b__count" (MVal.doc [("$sum", MVal.int 1)])]
      [.ident none (some "a") none none [] "a"] ≠
      .ok [MVal.doc [("$group", MVal.doc
            [("_id", MVal.doc [("a", MVal.str "$a")]),
             ("b__count", MVal.doc [("$sum", MVal.int 1)])])],
           MVal.doc [("$project", MVal.doc
            [("_id", MVal.bool false), ("a", MVal.str "$_id.a"),
             ("b__count", MVal.bool true)])]] := by
  constructor
  · rfl
  · intro h
    have h' : (Except.ok [MVal.doc [("$group", MVal.doc
            [("_id", MVal.doc [("a", MVal.doc [("a", MVal.str "$a.a")])]),
             ("b__count", MVal.doc [("$sum", MVal.int 1)])])],
           MVal.doc [("$project", MVal.doc
            [("_id", MVal.bool false),
             ("a.a", MVal.str "_id.a.a"),
             ("b__count", MVal.bool true)])]]
        : Except PyErr (List MVal)) =
        .ok [MVal.doc [("$group", MVal.doc
            [("_id", MVal.doc [("a", MVal.str "$a")]),
             ("b__count", MVal.doc [("$sum", MVal.int 1)])])],
           MVal.doc [("$project", MVal.doc
            [("_id", MVal.bool false), ("a", MVal.str "$_id.a"),
             ("b__count", MVal.bool true)])]] := h
    simp at h'

/-- Python token[0] on a sqlparse group token: the first sub-token of an
Identifier or IdentifierList item (IndexError when empty), the left child
of a Comparison; simple tokens are not subscriptable (TypeError). -/
def pyFirst : PTok → Except PyErr PTok
  | .ident _ _ _ _ subs _ =>
    match subs with
    | [] => .error .indexErr
    | s :: _ => .ok s
  | .identList items _ =>
    match items with
    | [] => .error .indexErr
    | s :: _ => .ok s
  | .cmp l _ _ => .ok l
  | _ => .error .typeErr

/-- The IdentifierList loop of OrderConverter.parse: each item is stored
as the pair of its first sub-token and itself. -/
def orderItems : List PTok → List (PTok × PTok) →
    Except PyErr (List (PTok × PTok))
  | [], acc => .ok acc
  | item :: rest, acc =>
    match pyFirst item with
    | .error e => .error e
    | .ok s0 => orderItems rest (acc ++ [(s0, item)])

/-- OrderConverter.parse over the remaining statement tokens: next() must
yield the keyword BY (an exhausted statement yields None, whose match call
raises AttributeError; a non-BY token is a decode error); the following
token contributes sort columns when it is an Identifier or an
IdentifierList, and otherwise the source runs neither branch, so the
parse returns silently with no sort columns. -/
def orderParse (toks : List PTok) : Except PyErr (List (PTok × PTok)) :=
  match toks with
  | [] => .error .attrErr
  | t1 :: rest =>
    match t1 with
    | .keyword kw _ =>
      if kw = "BY" then
        match rest with
        | [] => .ok []
        | t2 :: _ =>
          match t2 with
          | .ident p r a o subs v =>
            match pyFirst (.ident p r a o subs v) with
            | .error e => .error e
            | .ok s0 => .ok [(s0, .ident p r a o subs v)]
          | .identList items _ => orderItems items []
          | _ => .ok []
      else .error .decodeErr
    | _ => .error .decodeErr

/-- One element of a parenthesized value list in SQLToken.__iter__: a
placeholder yields its index, a NULL keyword yields None, anything else
raises a decode error. -/
def iterItems : List PTok → List (Option Nat) →
    Except PyErr (List (Option Nat))
  | [], acc => .ok acc
  | t :: rest, acc =>
    match t with
    | .placeholderTok v =>
      match placeholderIndex v with
      | .error e => .error e
      | .ok i => iterItems rest (acc ++ [some i])
    | .keyword kw _ =>
      if kw = "NULL" then iterItems rest (acc ++ [none])
      else .error .decodeErr
    | _ => .error .decodeErr

/-- SQLToken.__iter__: only a Parenthesis token is iterable; the first
token between the parens is a single placeholder, a single NULL keyword,
or an IdentifierList of placeholders and NULL keywords; every other shape
raises a decode error. -/
def sqlTokenIterF : PTok → Except PyErr (List (Option Nat))
  | .paren inner _ =>
    match inner with
    | [] => .error .indexErr
    | tok :: _ =>
      match tok with
      | .placeholderTok v =>
        match placeholderIndex v with
        | .error e => .error e
        | .ok i => .ok [some i]
      | .keyword kw _ =>
        if kw = "NULL" then .ok [none] else .error .decodeErr
      | .identList items _ => iterItems items []
      | _ => .error .decodeErr
  | _ => .error .decodeErr

/-- C7, at the failing input: after the keyword BY, a token that is
neither an Identifier nor an IdentifierList (here the integer literal of
ORDER BY 1) is silently skipped by OrderConverter.parse, which succeeds
with no sort columns instead of failing, because the source has no else
branch raising a decode error there; by contrast iterating a
parenthesized value list does fail with a decode error on an element that
is neither a placeholder nor NULL. -/
theorem order_parse_silent_fallback :
    orderParse [.keyword "BY" "BY", .other "1"] = .ok []
  ∧ sqlTokenIterF (.paren [.ident none (some "col") none none [] "col"]
      "(col)") = .error PyErr.decodeErr := by
  exact ⟨rfl, rfl⟩

/-- A statement cursor: the token sequence of the wrapped parsed
statement and the mutable token position. Whitespace tokens are omitted
from the model, so the token_next step is a plain increment. -/
structure SQLStatementM where
  toks : List PTok
  tokId : Nat

/-- SQLStatement.next in state-passing form: advance the position and
return the token there, or none when exhausted. -/
def stmtNext (s : SQLStatementM) : SQLStatementM × Option PTok :=
  ({ s with tokId := s.tokId + 1 }, s.toks.get? (s.tokId + 1))

/-- Python slice arithmetic of SQLStatement.__getitem__: start is
(item.start or 0) + tok_id, and stop is item.stop and tok_id + item.stop,
so a missing start acts as 0 and a missing stop reaches the end of the
sequence (a stop of 0 is falsy in Python and stays absolute 0). -/
def pySliceStop (tokId : Nat) : Option Nat → Option Nat
  | none => none
  | some 0 => some 0
  | some n => some (tokId + n)

/-- Python list slicing with an optional stop. -/
def pySlice {α : Type} (xs : List α) (start : Nat) : Option Nat → List α
  | none => xs.drop start
  | some stop => (xs.take stop).drop start

/-- SQLStatement.__getitem__ in state-passing form: the receiver is
returned unchanged (the method only reads it), and the result is a fresh
statement built by re-parsing the joined literal text of the token range
starting at the current position, its position at the first token. The
reparse function stands for the external sqlparse entry point. -/
def stmtGetItem (reparse : String → List PTok) (s : SQLStatementM)
    (start stop : Option Nat) : SQLStatementM × SQLStatementM :=
  (s,
   { toks := reparse (String.join
       ((pySlice s.toks (start.getD 0 + s.tokId)
          (pySliceStop s.tokId stop)).map PTok.value))
     tokId := 0 })

/-- C8: slicing a statement leaves the parent cursor unchanged, returns a
fresh cursor positioned at its first token whose token sequence is the
re-parse of the literal text of the token range beginning at the parent
current position, and advancing either cursor afterwards changes only its
own position, never the tokens or the position of the other. -/
theorem stmt_slice_independent (reparse : String → List PTok)
    (s : SQLStatementM) (start stop : Option Nat) :
    (stmtGetItem reparse s start stop).1 = s
  ∧ (stmtGetItem reparse s start stop).2.tokId = 0
  ∧ (stmtGetItem reparse s start stop).2.toks =
      reparse (String.join
        ((pySlice s.toks (start.getD 0 + s.tokId)
           (pySliceStop s.tokId stop)).map PTok.value))
  ∧ (stmtNext (stmtGetItem reparse s start stop).2).1.toks =
      (stmtGetItem reparse s start stop).2.toks
  ∧ (stmtNext (stmtGetItem reparse s start stop).2).1.tokId = 1
  ∧ (stmtNext s).1.toks = s.toks
  ∧ (stmtNext s).1.tokId = s.tokId + 1 := by
  exact ⟨rfl, rfl, rfl, rfl, rfl, rfl, rfl⟩
